import Mathlib

/-!
Shallow embedding of the Selenium driver pool of
`src/google_scholar_lib/backends/pool.py` and proofs of the spec claims
about it.

Modelling conventions:
* wall-clock instants and durations are rationals (`ℚ`), mirroring Python
  floats returned by `time.time()`;
* a live driver instance is a `Worker`: its stable `driver_id` together
  with an instance tag that distinguishes the physical instances a single
  identifier is backed by across recycles (fresh tags are drawn from the
  pool state's `nextTag` counter);
* the idle `asyncio.Queue` is a FIFO list (head = next item handed out),
  the `_driver_metrics` dict is an association list;
* drivers checked out by callers are collected in the ghost field `held`
  (the Python code leaves them implicit in the callers);
* fallible WebDriver creation is an explicit boolean environment choice
  (`ok`), health-probe responsiveness an explicit oracle;
* every pool method of the source that the claims mention is embedded as
  a pure state-transformer, and whole executions are lists of `PoolOp`
  steps folded over the state.  Each `async` method of the source runs
  from its first statement to its next true suspension point without
  interleaving (cooperative single-threaded event loop), which justifies
  embedding each operation as one atomic step.
-/

namespace ScholarPool

/-! ### Rate limiter (`DriverRateLimiter`, pool.py lines 23-55) -/

/-- The sliding-window prune of recorded admission timestamps:
`[t for t in self.request_times if now - t < 60]`. -/
def pruneWindow (times : List ℚ) (now : ℚ) : List ℚ :=
  times.filter (fun t => decide (now - t < 60))

/-- The duration `wait_if_needed` sleeps: if the pruned window already holds
at least `maxRpm` admissions, `60 - (now - oldest) + 0.1`, guarded by the
source's `if wait_time > 0`; otherwise no wait.  `oldest` is
`request_times[0]` after the prune. -/
def limiterWait (times : List ℚ) (now : ℚ) (maxRpm : Nat) : ℚ :=
  let pruned := pruneWindow times now
  if maxRpm ≤ pruned.length then
    let wt := 60 - (now - pruned.headD 0) + 1/10
    if 0 < wt then wt else 0
  else 0

/-- The recorded-timestamp state after `wait_if_needed` returns: the pruned
window with the admission's entry time appended
(`self.request_times.append(now)` — the source records the pre-sleep
instant). -/
def limiterRecord (times : List ℚ) (now : ℚ) : List ℚ :=
  pruneWindow times now ++ [now]

/-- Number of recorded timestamps lying in the trailing 60-second window
ending at instant `t`. -/
def inWindowCount (times : List ℚ) (t : ℚ) : Nat :=
  (times.filter (fun s => decide (t - s < 60))).length

/-- A schedule of admission-call instants is admissible when each call
starts no earlier than the completion instant
(`call time + slept duration`) of the previous one — calls on one
driver's limiter are serialized because the driver is held by a single
caller. -/
def admissibleSchedule (maxRpm : Nat) : List ℚ → List ℚ → ℚ → Bool
  | [], _, _ => true
  | now :: rest, state, c =>
    decide (c ≤ now) &&
      admissibleSchedule maxRpm rest (limiterRecord state now)
        (now + limiterWait state now maxRpm)

/-- After every admission decision of the schedule completes, the count of
recorded timestamps inside the trailing window is at most `maxRpm`. -/
def quotaRespected (maxRpm : Nat) : List ℚ → List ℚ → Bool
  | [], _ => true
  | now :: rest, state =>
    decide (inWindowCount (limiterRecord state now)
      (now + limiterWait state now maxRpm) ≤ maxRpm) &&
      quotaRespected maxRpm rest (limiterRecord state now)

/-! ### Data model (`DriverMetrics`, `SeleniumBackendPool`) -/

/-- One live WebDriver instance: its stable pool identifier plus an
instance tag distinguishing the successive physical instances backing the
same identifier across recycles. -/
structure Worker where
  driver_id : Nat
  tag : Nat
deriving DecidableEq, Repr

/-- Embedding of `DriverMetrics` (pool.py lines 58-71).  The rate limiter state
is the `request_times` list; its cap is the constructor-hardcoded
10 requests per minute. -/
structure DriverMetrics where
  driver_id : Nat
  request_count : Nat
  created_at : ℚ
  last_used_at : ℚ
  restart_count : Nat
  request_times : List ℚ
  is_quarantined : Bool
  quarantine_time : Option ℚ
deriving DecidableEq, Repr

/-- A freshly constructed `DriverMetrics(driver_id)` at instant `t`. -/
def DriverMetrics.fresh (driver_id : Nat) (t : ℚ) : DriverMetrics :=
  { driver_id := driver_id
    request_count := 0
    created_at := t
    last_used_at := t
    restart_count := 0
    request_times := []
    is_quarantined := false
    quarantine_time := none }

/-- Mutable state of a `SeleniumBackendPool`.  `drivers` is the idle FIFO
queue (head = next driver handed out); `held` is the ghost multiset of
drivers currently checked out to callers; `driver_metrics` mirrors the
`_driver_metrics` dict and `blocked_drivers` the `_blocked_drivers` dict
as association lists. -/
structure PoolState where
  pool_size : Nat
  max_pool_size : Nat
  max_requests_per_driver : Nat
  drivers : List (Worker × DriverMetrics)
  held : List (Worker × DriverMetrics)
  driver_metrics : List (Nat × DriverMetrics)
  blocked_drivers : List (Nat × ℚ)
  current_pool_size : Nat
  last_scale_time : ℚ
  scale_cooldown : ℚ
  nextTag : Nat
  total_acquisitions : Nat
  total_releases : Nat
  total_driver_restarts : Nat
  total_blocked_drivers : Nat
deriving DecidableEq, Repr

/-- Overwrite-or-append update of an association list (Python dict
assignment `d[k] = v`). -/
def assocSet {β : Type} : List (Nat × β) → Nat → β → List (Nat × β)
  | [], k, v => [(k, v)]
  | (k0, v0) :: rest, k, v =>
    if k0 = k then (k, v) :: rest else (k0, v0) :: assocSet rest k v

/-- First-match lookup in an association list (Python dict read). -/
def assocGet {β : Type} : List (Nat × β) → Nat → Option β
  | [], _ => none
  | (k0, v0) :: rest, k => if k0 = k then some v0 else assocGet rest k

/-- Pool state right after a successful `initialize()` at instant `t0`:
`pool_size` drivers with identifiers `0, …, pool_size-1` sit in the idle
queue, each tracked in `_driver_metrics`; the health-check task is
started; `_last_scale_time` was set to the construction instant and the
scale cooldown is the hardcoded 60 seconds. -/
def mkPoolState (pool_size max_pool_size max_requests_per_driver : Nat)
    (t0 : ℚ) : PoolState :=
  { pool_size := pool_size
    max_pool_size := max_pool_size
    max_requests_per_driver := max_requests_per_driver
    drivers := (List.range pool_size).map
      (fun i => (⟨i, i⟩, DriverMetrics.fresh i t0))
    held := []
    driver_metrics := (List.range pool_size).map
      (fun i => (i, DriverMetrics.fresh i t0))
    blocked_drivers := []
    current_pool_size := pool_size
    last_scale_time := t0
    scale_cooldown := 60
    nextTag := pool_size
    total_acquisitions := 0
    total_releases := 0
    total_driver_restarts := 0
    total_blocked_drivers := 0 }

/-! ### Pool operations -/

/-- Embedding of `acquire` (pool.py lines 302-364), success path: pop the queue head,
increment its use-count, stamp `last_used_at`, apply the rate limiter's
prune-and-record (`wait_if_needed`), bump `total_acquisitions`.  Returns
`none` when the idle queue is empty (the caller blocks; the timeout path
is modelled separately by `acquireTimed`). -/
def acquire (s : PoolState) (t : ℚ) :
    Option ((Worker × DriverMetrics) × PoolState) :=
  match s.drivers with
  | [] => none
  | (w, m) :: rest =>
    let m' : DriverMetrics :=
      { m with
        request_count := m.request_count + 1
        last_used_at := t
        request_times := limiterRecord m.request_times t }
    some ((w, m'),
      { s with
        drivers := rest
        held := s.held ++ [(w, m')]
        driver_metrics := assocSet s.driver_metrics w.driver_id m'
        total_acquisitions := s.total_acquisitions + 1 })

/-- Embedding of `_recycle_driver` (pool.py lines 408-457): quit the old instance,
create a replacement with the same `driver_id` (environment choice `ok`
says whether `_create_driver` succeeds), carry `restart_count + 1`,
replace the `_driver_metrics` entry, and append the replacement to the
idle queue.  On creation failure nothing is added back and the metrics
map keeps the old entry. -/
def recycle_driver (s : PoolState) (m : DriverMetrics) (t : ℚ)
    (ok : Bool) : PoolState :=
  if ok then
    { s with
      drivers := s.drivers ++
        [(⟨m.driver_id, s.nextTag⟩,
          { DriverMetrics.fresh m.driver_id t with
            restart_count := m.restart_count + 1 })]
      driver_metrics := assocSet s.driver_metrics m.driver_id
        { DriverMetrics.fresh m.driver_id t with
          restart_count := m.restart_count + 1 }
      nextTag := s.nextTag + 1
      total_driver_restarts := s.total_driver_restarts + 1 }
  else s

/-- Embedding of `release` (pool.py lines 366-406): bump `total_releases`; if the
use-count has reached `max_requests_per_driver`, recycle, else put the
driver back at the tail of the idle queue.  The ghost `held` entry is
removed in either case. -/
def release (s : PoolState) (w : Worker) (m : DriverMetrics) (t : ℚ)
    (ok : Bool) : PoolState :=
  let s1 : PoolState :=
    { s with
      total_releases := s.total_releases + 1
      held := s.held.filter (fun p => decide (p.1 ≠ w)) }
  if s.max_requests_per_driver ≤ m.request_count then
    recycle_driver s1 m t ok
  else
    { s1 with drivers := s1.drivers ++ [(w, m)] }

/-- The metrics mutation `quarantine_driver` performs before recycling:
`metrics.is_quarantined = True; metrics.quarantine_time = time.time()`. -/
def quarantineMark (m : DriverMetrics) (t : ℚ) : DriverMetrics :=
  { m with is_quarantined := true, quarantine_time := some t }

/-- Embedding of `quarantine_driver` (pool.py lines 618-637): mark the metrics
quarantined, record the quarantine instant in `_blocked_drivers`, bump
`total_blocked_drivers`, and immediately recycle the driver. -/
def quarantine_driver (s : PoolState) (w : Worker) (m : DriverMetrics)
    (t : ℚ) (ok : Bool) : PoolState :=
  let s1 : PoolState :=
    { s with
      blocked_drivers := assocSet s.blocked_drivers m.driver_id t
      total_blocked_drivers := s.total_blocked_drivers + 1
      held := s.held.filter (fun p => decide (p.1 ≠ w)) }
  recycle_driver s1 (quarantineMark m t) t ok

/-- The driver-adding loop of `_scale_pool` (pool.py lines 687-697): for
each requested identifier, create a driver (subject to the environment
choice `ok`), append it to the idle queue and record its metrics;
per-driver creation failures are logged and skipped. -/
def addDrivers (t : ℚ) (ok : Bool) : PoolState → List Nat → PoolState
  | st, [] => st
  | st, id :: ids =>
    if ok then
      addDrivers t ok
        { st with
          drivers := st.drivers ++ [(⟨id, st.nextTag⟩, DriverMetrics.fresh id t)]
          driver_metrics := assocSet st.driver_metrics id
            (DriverMetrics.fresh id t)
          nextTag := st.nextTag + 1 }
        ids
    else addDrivers t ok st ids

/-- Embedding of `_scale_pool` (pool.py lines 671-709): when growing, add drivers with
identifiers `current_pool_size + i`; when shrinking, remove nothing
("let natural recycling handle reduction"); finally set
`current_pool_size := new_size` and stamp `_last_scale_time`. -/
def scale_pool (s : PoolState) (new_size : Nat) (t : ℚ) (ok : Bool) :
    PoolState :=
  let s1 : PoolState :=
    if s.current_pool_size < new_size then
      addDrivers t ok s
        ((List.range (new_size - s.current_pool_size)).map
          (fun i => s.current_pool_size + i))
    else s
  { s1 with current_pool_size := new_size, last_scale_time := t }

/-- The decision `_adaptive_scaling_check` (pool.py lines 641-669) takes at
instant `t`: `none` when the cooldown has not elapsed, the pool is empty,
or neither threshold triggers; otherwise the new target size (`+1` when
utilization exceeds 0.8 below the maximum, `-1` when it is under 0.3
above the configured minimum). -/
def scaleTarget (s : PoolState) (t : ℚ) : Option Nat :=
  if t - s.last_scale_time < s.scale_cooldown then none
  else if s.current_pool_size = 0 then none
  else
    let util : ℚ :=
      1 - (s.drivers.length : ℚ) / (s.current_pool_size : ℚ)
    if 8/10 < util ∧ s.current_pool_size < s.max_pool_size then
      some (s.current_pool_size + 1)
    else if util < 3/10 ∧ s.pool_size < s.current_pool_size then
      some (s.current_pool_size - 1)
    else none

/-- Embedding of `_adaptive_scaling_check` followed by `_scale_pool` when a decision
fires.  The whole check-and-scale path contains no event-loop suspension
point (`_create_driver` and a non-full `Queue.put` never yield), so it is
embedded as one atomic step. -/
def adaptive_scaling_check (s : PoolState) (t : ℚ) (ok : Bool) : PoolState :=
  match scaleTarget s t with
  | some n => scale_pool s n t ok
  | none => s

/-- The per-driver probe loop of `_perform_health_check` (pool.py lines
504-522): responsive drivers go back to the idle queue, unresponsive ones
are recycled. -/
def processProbed (t : ℚ) (responsive createOk : Worker → Bool) :
    PoolState → List (Worker × DriverMetrics) → PoolState
  | st, [] => st
  | st, (w, m) :: rest =>
    if responsive w then
      processProbed t responsive createOk
        { st with drivers := st.drivers ++ [(w, m)] } rest
    else
      processProbed t responsive createOk
        (recycle_driver st m t (createOk w)) rest

/-- Embedding of `_perform_health_check` (pool.py lines 486-531): drain
`min(qsize, current_pool_size)` entries from the idle queue — the count is
computed once, before the drain — then probe each drained driver and
return or recycle it. -/
def perform_health_check (s : PoolState) (t : ℚ)
    (responsive createOk : Worker → Bool) : PoolState :=
  let n := min s.drivers.length s.current_pool_size
  processProbed t responsive createOk
    { s with drivers := s.drivers.drop n } (s.drivers.take n)

/-! ### Executions -/

/-- One observable step of the pool: the operations callers and background
tasks can perform, each carrying its wall-clock instant and the
environment's choices (driver-creation success, probe responsiveness).
`releaseOp i` / `quarantineOp i` act on the `i`-th currently held
driver. -/
inductive PoolOp where
  | acquireOp (t : ℚ)
  | releaseOp (i : Nat) (t : ℚ) (ok : Bool)
  | scaleCheckOp (t : ℚ) (ok : Bool)
  | quarantineOp (i : Nat) (t : ℚ) (ok : Bool)
  | healthOp (t : ℚ) (responsive : Worker → Bool) (createOk : Worker → Bool)

/-- Interpretation of one step on the pool state. -/
def step (s : PoolState) : PoolOp → PoolState
  | .acquireOp t =>
    match acquire s t with
    | some (_, s') => s'
    | none => s
  | .releaseOp i t ok =>
    match s.held.get? i with
    | some (w, m) => release s w m t ok
    | none => s
  | .scaleCheckOp t ok => adaptive_scaling_check s t ok
  | .quarantineOp i t ok =>
    match s.held.get? i with
    | some (w, m) => quarantine_driver s w m t ok
    | none => s
  | .healthOp t responsive createOk =>
    perform_health_check s t responsive createOk

/-- Fold a list of steps over a start state. -/
def run (s : PoolState) : List PoolOp → PoolState
  | [] => s
  | op :: ops => run (step s op) ops

/-- Does `idle + held ≤ current target size` hold at this observation point. -/
def capacityOk (s : PoolState) : Bool :=
  decide (s.drivers.length + s.held.length ≤ s.current_pool_size)

/-- Whether `capacityOk` holds at every observation point of an execution (before the
first step, between any two steps, and after the last). -/
def allStatesCapacityOk : PoolState → List PoolOp → Bool
  | s, [] => capacityOk s
  | s, op :: ops => capacityOk s && allStatesCapacityOk (step s op) ops

/-- The step is not a scaling check that makes a scale-down decision in
state `s`. -/
def notScaleDownAt (s : PoolState) : PoolOp → Bool
  | .scaleCheckOp t _ =>
    !(decide (scaleTarget s t = some (s.current_pool_size - 1)))
  | _ => true

/-- No scaling check along the execution makes a scale-down decision. -/
def noScaleDownRun : PoolState → List PoolOp → Bool
  | _, [] => true
  | s, op :: ops => notScaleDownAt s op && noScaleDownRun (step s op) ops

/-- The instant of the step's scaling decision, if the step is a scaling
check whose decision fires in state `s` (else nothing). -/
def scaleDecisionAt (s : PoolState) : PoolOp → List ℚ
  | .scaleCheckOp t _ => if (scaleTarget s t).isSome then [t] else []
  | _ => []

/-- The instants at which scaling checks of the execution make a scaling
decision (i.e. reach `_scale_pool` and change the target size). -/
def scaleDecisionTimes : PoolState → List PoolOp → List ℚ
  | _, [] => []
  | s, op :: ops => scaleDecisionAt s op ++ scaleDecisionTimes (step s op) ops

/-- Concrete execution refuting `idle + held ≤ current_pool_size`: one
driver is acquired, the scaler grows the target to 2 (utilization 100%),
the driver is released, a second acquire/release round leaves both
drivers idle, and the scaler then shrinks the target back to 1 without
removing either driver. -/
def c1Trace : List PoolOp :=
  [.acquireOp 61, .scaleCheckOp 61 true, .releaseOp 0 61 true,
   .acquireOp 122, .releaseOp 0 122 true, .scaleCheckOp 122 true]

/-- Extension of `c1Trace`: with the target lazily shrunk back to 1 while
both drivers stay alive, two callers acquire both drivers and the scaler
grows again — `_scale_pool` hands the new driver the identifier
`current_pool_size + 0 = 1`, which the held driver already bears. -/
def c7Trace : List PoolOp :=
  c1Trace ++ [.acquireOp 123, .acquireOp 124, .scaleCheckOp 183 true]

/-- Sample two-driver pool used to exercise the health-check theorem on a
concrete input. -/
def samplePool : PoolState := mkPoolState 2 2 50 0

/-- Sample probe oracle: only the driver with instance tag 0 responds. -/
def sampleResponsive : Worker → Bool := fun w => decide (w.tag = 0)

/-- Sample creation oracle: replacement creation always succeeds. -/
def sampleCreateOk : Worker → Bool := fun _ => true

/-! ### Timed view of `acquire` (pool.py lines 302-364)

`acquire` waits on `asyncio.wait_for(self._drivers.get(), timeout)`.
`acquireTimed` embeds the event-loop semantics of that line for one
acquirer: the idle queue is FIFO; a driver released at instant `t`
before the deadline wakes the getter immediately; when the deadline
elapses first, `wait_for` cancels the `get`, which removes the waiter
from the queue (no queue slot is leaked), `asyncio.TimeoutError` — the
spec's `PoolExhausted` — is raised at the deadline, and every driver
released afterwards simply lands in the idle queue. -/

/-- Result of a timed acquisition: a driver at an instant, or
`PoolExhausted` at an instant. -/
inductive AcquireOutcome where
  | success (w : Worker) (t : ℚ)
  | poolExhausted (t : ℚ)
deriving DecidableEq, Repr

/-- One `acquire(timeout := T)` call starting at instant 0 against idle
queue `idle`, with `releases` the (time-ordered) releases occurring after
the call starts.  Returns the outcome and the idle queue once all of
`releases` have been processed. -/
def acquireTimed (idle : List Worker) (releases : List (ℚ × Worker))
    (T : ℚ) : AcquireOutcome × List Worker :=
  match idle with
  | w :: rest => (.success w 0, rest ++ releases.map Prod.snd)
  | [] =>
    match releases with
    | [] => (.poolExhausted T, [])
    | (t, w) :: rs =>
      if t < T then (.success w t, rs.map Prod.snd)
      else (.poolExhausted T, w :: rs.map Prod.snd)

/-! ### `check_for_blocking` (pool.py lines 572-616)

Page text is a `List Char`; `none` stands for the page-source retrieval
raising (any exception is caught and reported as "not blocked"). -/

/-- First detection pattern, `"our systems have detected unusual traffic"`. -/
def unusualTrafficPattern : List Char :=
  "our systems have detected unusual traffic".data

/-- Second detection pattern: `please show you` + apostrophe +
`re not a robot`. -/
def robotPattern : List Char :=
  "please show you".data ++ [Char.ofNat 39] ++ "re not a robot".data

/-- The `blocked_patterns` list — the only two phrases checked. -/
def blockedPatterns : List (List Char) :=
  [unusualTrafficPattern, robotPattern]

/-- The `for pattern in blocked_patterns: if pattern in page_source:
return True` loop. -/
def scanBlockedPatterns : List (List Char) → List Char → Bool
  | [], _ => false
  | p :: ps, src =>
    if decide (p <:+: src) then true else scanBlockedPatterns ps src

/-- Embedding of `check_for_blocking`: lowercase the page source and scan it for the
two blocking phrases; if retrieval raised (`none`), return `False`. -/
def check_for_blocking (pageSource : Option (List Char)) : Bool :=
  match pageSource with
  | none => false
  | some s => scanBlockedPatterns blockedPatterns (s.map Char.toLower)

/-! ## Theorems -/

/-- C10: `check_for_blocking` returns `True` if and only if one of the two
fixed blocking phrases (`our systems have detected unusual traffic`,
`please show you're not a robot`) occurs in the lowercased page text of
the given driver, and it returns `False` (driver treated as not blocked)
when retrieving the page content raises. -/
theorem C10_check_for_blocking_iff :
    check_for_blocking none = false ∧
      ∀ s : List Char,
        (check_for_blocking (some s) = true ↔
          unusualTrafficPattern <:+: s.map Char.toLower ∨
            robotPattern <:+: s.map Char.toLower) := by
  refine ⟨rfl, fun s => ?_⟩
  by_cases h1 : unusualTrafficPattern <:+: s.map Char.toLower <;>
    by_cases h2 : robotPattern <:+: s.map Char.toLower <;>
      simp [check_for_blocking, blockedPatterns, scanBlockedPatterns, h1, h2]

/-- C4: when the (N+1)-th admission on one driver arrives while N prior
admissions sit inside the trailing 60-second window, the limiter sleeps
exactly `60 - (now - oldest_of_window) + 0.1`, hence at least
`60 - (now - oldest_of_window)`; `oldest_of_window` (`request_times[0]`
after the prune) really is the oldest in-window admission; admissions
whose predecessors all lie 60 or more seconds in the past incur no delay;
and the limiter never denies an admission — the decision always completes
by recording the admission. -/
theorem C4_rate_limiter_wait (times : List ℚ) (now : ℚ) (maxRpm : Nat)
    (hrpm : 1 ≤ maxRpm) (hsorted : times.Sorted (· ≤ ·)) :
    (maxRpm ≤ (pruneWindow times now).length →
        limiterWait times now maxRpm
            = 60 - (now - (pruneWindow times now).headD 0) + 1/10 ∧
          60 - (now - (pruneWindow times now).headD 0)
            ≤ limiterWait times now maxRpm ∧
          ∀ t ∈ pruneWindow times now, (pruneWindow times now).headD 0 ≤ t) ∧
      ((∀ t ∈ times, 60 ≤ now - t) → limiterWait times now maxRpm = 0) ∧
      limiterRecord times now = pruneWindow times now ++ [now] := by
  refine ⟨fun hfull => ?_, fun hfar => ?_, rfl⟩
  · have hsp : (pruneWindow times now).Sorted (· ≤ ·) :=
      hsorted.filter _
    match hp : pruneWindow times now with
    | [] =>
      rw [hp] at hfull
      simp at hfull
      omega
    | h :: tl =>
      have hmem : h ∈ pruneWindow times now := by rw [hp]; exact List.mem_cons_self _ _
      have hwin : now - h < 60 := by
        have := List.of_mem_filter hmem
        simpa using this
      have hpos : (0:ℚ) < 60 - (now - h) + 1/10 := by linarith
      rw [hp] at hsp
      constructor
      · rw [limiterWait, hp]
        simp only [List.headD_cons]
        rw [if_pos (by rw [hp] at hfull; exact hfull), if_pos hpos]
      · constructor
        · rw [limiterWait, hp]
          simp only [List.headD_cons]
          rw [if_pos (by rw [hp] at hfull; exact hfull), if_pos hpos]
          linarith
        · intro t ht
          simp only [List.headD_cons]
          rcases List.mem_cons.mp ht with rfl | htl
          · exact le_refl t
          · exact List.rel_of_sorted_cons hsp t htl
  · have hnil : pruneWindow times now = [] := by
      rw [pruneWindow, List.filter_eq_nil_iff]
      intro t ht
      have := hfar t ht
      simp only [decide_eq_true_eq]
      linarith
    rw [limiterWait, hnil]
    simp only [List.length_nil]
    rw [if_neg (by omega)]

/-- Witness for C4 at `times = [0]`, `now = 30`, `maxRpm = 1`. -/
theorem C4_rate_limiter_wait_witness :
    (1 ≤ 1 ∧ List.Sorted (· ≤ ·) [(0:ℚ)]) ∧
      ((1 ≤ (pruneWindow [(0:ℚ)] 30).length →
          limiterWait [(0:ℚ)] 30 1
              = 60 - (30 - (pruneWindow [(0:ℚ)] 30).headD 0) + 1/10 ∧
            60 - (30 - (pruneWindow [(0:ℚ)] 30).headD 0)
              ≤ limiterWait [(0:ℚ)] 30 1 ∧
            ∀ t ∈ pruneWindow [(0:ℚ)] 30,
              (pruneWindow [(0:ℚ)] 30).headD 0 ≤ t) ∧
        ((∀ t ∈ [(0:ℚ)], 60 ≤ 30 - t) → limiterWait [(0:ℚ)] 30 1 = 0) ∧
        limiterRecord [(0:ℚ)] 30 = pruneWindow [(0:ℚ)] 30 ++ [30]) :=
  ⟨⟨le_refl 1, List.sorted_singleton 0⟩,
    C4_rate_limiter_wait [0] 30 1 (le_refl 1) (List.sorted_singleton 0)⟩

/-- Filter with a pointwise-weaker predicate keeps at least as many
elements. -/
theorem length_filter_le_of_imp {α : Type} (l : List α) (p q : α → Bool)
    (h : ∀ a, p a = true → q a = true) :
    (l.filter p).length ≤ (l.filter q).length := by
  induction l with
  | nil => simp
  | cons a l ih =>
    by_cases hp : p a = true
    · rw [List.filter_cons_of_pos hp, List.filter_cons_of_pos (h a hp)]
      simpa using ih
    · rw [List.filter_cons_of_neg (by simpa using hp)]
      by_cases hq : q a = true
      · rw [List.filter_cons_of_pos hq]
        exact le_trans ih (by simp)
      · rw [List.filter_cons_of_neg (by simpa using hq)]
        exact ih

/-- One admission decision preserves the window quota: if at most `maxRpm`
recorded timestamps are in-window at the previous completion instant `c`
and the next call starts at `now ≥ c`, then at the next completion
instant at most `maxRpm` recorded timestamps are in-window. -/
theorem limiter_step_quota (state : List ℚ) (c now : ℚ) (maxRpm : Nat)
    (hrpm : 1 ≤ maxRpm)
    (hinv : inWindowCount state c ≤ maxRpm)
    (hc : c ≤ now) :
    inWindowCount (limiterRecord state now)
      (now + limiterWait state now maxRpm) ≤ maxRpm := by
  have hlen : (pruneWindow state now).length ≤ maxRpm := by
    refine le_trans (length_filter_le_of_imp state _ _ ?_) hinv
    intro a ha
    simp only [decide_eq_true_eq] at ha ⊢
    linarith
  by_cases hfull : maxRpm ≤ (pruneWindow state now).length
  · have hexact : (pruneWindow state now).length = maxRpm :=
      le_antisymm hlen hfull
    match hp : pruneWindow state now with
    | [] =>
      rw [hp] at hexact
      simp at hexact
      omega
    | h :: tl =>
      have hmem : h ∈ pruneWindow state now := by
        rw [hp]; exact List.mem_cons_self _ _
      have hwin : now - h < 60 := by
        have := List.of_mem_filter hmem
        simpa using this
      have hpos : (0:ℚ) < 60 - (now - h) + 1/10 := by linarith
      have hwait : limiterWait state now maxRpm = 60 - (now - h) + 1/10 := by
        rw [limiterWait, hp]
        simp only [List.headD_cons]
        rw [if_pos (by rw [hp] at hfull; exact hfull), if_pos hpos]
      rw [limiterRecord, hp, hwait, inWindowCount, List.filter_append,
        List.length_append]
      have hhead :
          (decide (now + (60 - (now - h) + 1/10) - h < 60)) = false := by
        simp only [decide_eq_false_iff_not, not_lt]
        linarith
      rw [List.filter_cons_of_neg (by simp; linarith)]
      have htl : ((tl.filter
          (fun s => decide (now + (60 - (now - h) + 1/10) - s < 60))).length)
            ≤ tl.length := List.length_filter_le _ _
      have hlast : (([now].filter
          (fun s => decide (now + (60 - (now - h) + 1/10) - s < 60))).length)
            ≤ 1 := by
        refine le_trans (List.length_filter_le _ _) ?_
        simp
      have htllen : tl.length = maxRpm - 1 := by
        rw [hp] at hexact
        simp at hexact
        omega
      omega
  · have hwait : limiterWait state now maxRpm = 0 := by
      rw [limiterWait, if_neg hfull]
    rw [limiterRecord, hwait, inWindowCount, List.filter_append,
      List.length_append, add_zero]
    have h1 : ((pruneWindow state now).filter
        (fun s => decide (now - s < 60))).length
          ≤ (pruneWindow state now).length := List.length_filter_le _ _
    have h2 : (([now].filter (fun s => decide (now - s < 60))).length) ≤ 1 := by
      refine le_trans (List.length_filter_le _ _) ?_
      simp
    omega

/-- Over a whole admissible schedule, every admission decision leaves at
most `maxRpm` in-window timestamps at its completion instant. -/
theorem limiter_run_quota (maxRpm : Nat) (hrpm : 1 ≤ maxRpm) :
    ∀ (sched state : List ℚ) (c : ℚ),
      inWindowCount state c ≤ maxRpm →
      admissibleSchedule maxRpm sched state c = true →
      quotaRespected maxRpm sched state = true := by
  intro sched
  induction sched with
  | nil => intro state c _ _; rfl
  | cons now rest ih =>
    intro state c hinv hadm
    rw [admissibleSchedule, Bool.and_eq_true, decide_eq_true_eq] at hadm
    obtain ⟨hc, hrest⟩ := hadm
    have hstep := limiter_step_quota state c now maxRpm hrpm hinv hc
    rw [quotaRespected, Bool.and_eq_true, decide_eq_true_eq]
    exact ⟨hstep, ih _ _ hstep hrest⟩

/-- C5: for every driver's rate limiter and every admissible sequence of
admission calls starting from the fresh limiter state, after each
admission decision completes the count of recorded admission timestamps
inside the trailing 60-second window never exceeds the configured
per-window quota. -/
theorem C5_rate_limiter_quota (maxRpm : Nat) (sched : List ℚ) (c0 : ℚ)
    (hrpm : 1 ≤ maxRpm)
    (hadm : admissibleSchedule maxRpm sched [] c0 = true) :
    quotaRespected maxRpm sched [] = true :=
  limiter_run_quota maxRpm hrpm sched [] c0 (by simp [inWindowCount]) hadm

/-- Witness for C5 at the configured quota 10, schedule `[5]`. -/
theorem C5_rate_limiter_quota_witness :
    (1 ≤ 10 ∧ admissibleSchedule 10 [5] [] 0 = true) ∧
      quotaRespected 10 [5] [] = true :=
  ⟨⟨by decide, by decide⟩, C5_rate_limiter_quota 10 [5] 0 (by decide) (by decide)⟩

/-- C3: an `acquire(timeout = T)` against an empty idle queue fails with
`PoolExhausted` exactly at the deadline `T` when no release occurs before
`T`, and consumes nothing — every release is still delivered to the idle
queue (in particular, with no releases at all the queue is unchanged);
and it succeeds immediately, at the release instant, with the earliest
released driver, as soon as any release occurs at some `t < T`. -/
theorem C3_acquire_timeout (releases : List (ℚ × Worker)) (T : ℚ)
    (hsorted : releases.Sorted (fun a b => a.1 ≤ b.1)) :
    ((∀ p ∈ releases, T ≤ p.1) →
        acquireTimed [] releases T
          = (.poolExhausted T, releases.map Prod.snd)) ∧
      (∀ p ∈ releases, p.1 < T →
        ∃ q ∈ releases, q.1 < T ∧ q.1 ≤ p.1 ∧
          (acquireTimed [] releases T).1 = .success q.2 q.1) ∧
      acquireTimed [] [] T = (.poolExhausted T, []) := by
  refine ⟨fun hall => ?_, fun p hp hpT => ?_, rfl⟩
  · match releases, hall with
    | [], _ => rfl
    | (t, w) :: rs, hall =>
      have hT : T ≤ t := hall (t, w) (List.mem_cons_self _ _)
      simp [acquireTimed, not_lt.mpr hT]
  · match releases, hsorted, hp with
    | (t0, w0) :: rs, hs, hp =>
      have ht0 : t0 ≤ p.1 := by
        rcases List.mem_cons.mp hp with h | hmem
        · rw [h]
        · exact List.rel_of_sorted_cons hs p hmem
      have ht0T : t0 < T := lt_of_le_of_lt ht0 hpT
      exact ⟨(t0, w0), List.mem_cons_self _ _, ht0T, ht0,
        by simp [acquireTimed, ht0T]⟩

/-- Witness for C3: two releases at instants 5 and 7 against deadline 3. -/
theorem C3_acquire_timeout_witness :
    List.Sorted (fun a b => Prod.fst a ≤ Prod.fst b)
        [((5:ℚ), (⟨0, 0⟩ : Worker)), (7, ⟨1, 1⟩)] ∧
      (((∀ p ∈ [((5:ℚ), (⟨0, 0⟩ : Worker)), (7, ⟨1, 1⟩)], (3:ℚ) ≤ p.1) →
          acquireTimed [] [((5:ℚ), (⟨0, 0⟩ : Worker)), (7, ⟨1, 1⟩)] 3
            = (.poolExhausted 3,
                [((5:ℚ), (⟨0, 0⟩ : Worker)), (7, ⟨1, 1⟩)].map Prod.snd)) ∧
        (∀ p ∈ [((5:ℚ), (⟨0, 0⟩ : Worker)), (7, ⟨1, 1⟩)], p.1 < 3 →
          ∃ q ∈ [((5:ℚ), (⟨0, 0⟩ : Worker)), (7, ⟨1, 1⟩)], q.1 < 3 ∧
            q.1 ≤ p.1 ∧
            (acquireTimed [] [((5:ℚ), (⟨0, 0⟩ : Worker)), (7, ⟨1, 1⟩)] 3).1
              = .success q.2 q.1) ∧
        acquireTimed ([] : List Worker) [] 3 = (.poolExhausted 3, [])) :=
  ⟨by decide, C3_acquire_timeout [(5, ⟨0, 0⟩), (7, ⟨1, 1⟩)] 3 (by decide)⟩

/-- Reading with `assocGet` after `assocSet` at the same key returns the new value. -/
theorem assocGet_assocSet {β : Type} (l : List (Nat × β)) (k : Nat) (v : β) :
    assocGet (assocSet l k v) k = some v := by
  induction l with
  | nil => simp [assocSet, assocGet]
  | cons p rest ih =>
    match p with
    | (k0, v0) =>
      by_cases h : k0 = k
      · rw [assocSet, if_pos h, assocGet, if_pos rfl]
      · rw [assocSet, if_neg h, assocGet, if_neg h]
        exact ih

/-- C2: `release` puts the released instance back in the idle queue iff
its use-count is below `max_requests_per_driver`; at or above the
ceiling it triggers `_recycle_driver` instead (the pool's restart counter
increments), after which the driver's identifier is present in the idle
queue only as a replacement instance whose use-count is 0 and whose
restart count is the old restart count plus exactly one. -/
theorem C2_release_recycle (s : PoolState) (w : Worker) (m : DriverMetrics)
    (t : ℚ) (ok : Bool)
    (hwm : w.driver_id = m.driver_id)
    (htag : w.tag < s.nextTag)
    (hid : ∀ p ∈ s.drivers, p.1.driver_id ≠ m.driver_id) :
    ((w, m) ∈ (release s w m t ok).drivers ↔
        m.request_count < s.max_requests_per_driver) ∧
      (s.max_requests_per_driver ≤ m.request_count → ok = true →
        (release s w m t ok).total_driver_restarts
            = s.total_driver_restarts + 1 ∧
          ∀ q ∈ (release s w m t ok).drivers, q.1.driver_id = m.driver_id →
            q.2.request_count = 0 ∧
              q.2.restart_count = m.restart_count + 1 ∧ q.1 ≠ w) := by
  by_cases hceil : s.max_requests_per_driver ≤ m.request_count
  · constructor
    · simp only [release, if_pos hceil]
      constructor
      · intro hmem
        exfalso
        cases ok with
        | true =>
          simp only [recycle_driver, if_pos rfl] at hmem
          rcases List.mem_append.mp hmem with hin | hnew
          · exact hid _ hin hwm
          · have := List.mem_singleton.mp hnew
            have hw : w = ⟨m.driver_id, s.nextTag⟩ :=
              congrArg Prod.fst this
            have : w.tag = s.nextTag := congrArg Worker.tag hw
            omega
        | false =>
          simp only [recycle_driver, if_neg (Bool.false_ne_true)] at hmem
          exact hid _ hmem hwm
      · intro hlt
        omega
    · intro _ hok
      subst hok
      simp only [release, if_pos hceil, recycle_driver, if_pos rfl]
      refine ⟨rfl, fun q hq hqid => ?_⟩
      rcases List.mem_append.mp hq with hin | hnew
      · exact absurd hqid (hid _ hin)
      · have hq' := List.mem_singleton.mp hnew
        subst hq'
        refine ⟨rfl, rfl, fun hqw => ?_⟩
        have : s.nextTag = w.tag := congrArg Worker.tag hqw
        omega
  · constructor
    · simp only [release, if_neg hceil]
      constructor
      · intro _
        omega
      · intro _
        exact List.mem_append.mpr (Or.inr (List.mem_singleton.mpr rfl))
    · intro h
      exact absurd h hceil

/-- Witness for C2: a pool whose sole idle driver has identifier 0, and a
held driver with identifier 5 released at its use ceiling. -/
theorem C2_release_recycle_witness :
    ((⟨5, 0⟩ : Worker).driver_id
          = (DriverMetrics.fresh 5 0).driver_id ∧
        (⟨5, 0⟩ : Worker).tag < (mkPoolState 1 2 0 0).nextTag ∧
        ∀ p ∈ (mkPoolState 1 2 0 0).drivers,
          p.1.driver_id ≠ (DriverMetrics.fresh 5 0).driver_id) ∧
      (((⟨5, 0⟩ : Worker), DriverMetrics.fresh 5 0) ∈
          (release (mkPoolState 1 2 0 0) ⟨5, 0⟩ (DriverMetrics.fresh 5 0) 3
            true).drivers ↔
        (DriverMetrics.fresh 5 0).request_count
          < (mkPoolState 1 2 0 0).max_requests_per_driver) ∧
      ((mkPoolState 1 2 0 0).max_requests_per_driver
          ≤ (DriverMetrics.fresh 5 0).request_count → true = true →
        (release (mkPoolState 1 2 0 0) ⟨5, 0⟩ (DriverMetrics.fresh 5 0) 3
              true).total_driver_restarts
            = (mkPoolState 1 2 0 0).total_driver_restarts + 1 ∧
          ∀ q ∈ (release (mkPoolState 1 2 0 0) ⟨5, 0⟩
              (DriverMetrics.fresh 5 0) 3 true).drivers,
            q.1.driver_id = (DriverMetrics.fresh 5 0).driver_id →
              q.2.request_count = 0 ∧
                q.2.restart_count = (DriverMetrics.fresh 5 0).restart_count + 1 ∧
                q.1 ≠ ⟨5, 0⟩) :=
  ⟨⟨rfl, by decide, by decide⟩,
    C2_release_recycle (mkPoolState 1 2 0 0) ⟨5, 0⟩ (DriverMetrics.fresh 5 0)
      3 true rfl (by decide) (by decide)⟩

/-- C6: `quarantine_driver` sets the quarantine flag, records the
quarantine instant (in the metrics and in `_blocked_drivers`), and
immediately recycles: the pool's restart counter increments, the
quarantined instance itself is never in the idle queue afterwards, and
the idle queue gains a replacement carrying the same stable identifier
with the restart count increased and a cleared quarantine flag. -/
theorem C6_quarantine_driver (s : PoolState) (w : Worker) (m : DriverMetrics)
    (t : ℚ)
    (hwm : w.driver_id = m.driver_id)
    (htag : w.tag < s.nextTag)
    (hid : ∀ p ∈ s.drivers, p.1.driver_id ≠ m.driver_id) :
    (quarantineMark m t).is_quarantined = true ∧
      (quarantineMark m t).quarantine_time = some t ∧
      assocGet (quarantine_driver s w m t true).blocked_drivers m.driver_id
          = some t ∧
      (quarantine_driver s w m t true).total_driver_restarts
          = s.total_driver_restarts + 1 ∧
      (∀ p ∈ (quarantine_driver s w m t true).drivers, p.1 ≠ w) ∧
      ∃ q ∈ (quarantine_driver s w m t true).drivers,
        q.1.driver_id = m.driver_id ∧ q.2.request_count = 0 ∧
          q.2.restart_count = m.restart_count + 1 ∧
          q.2.is_quarantined = false := by
  refine ⟨rfl, rfl, ?_, ?_, ?_, ?_⟩
  · simp only [quarantine_driver, recycle_driver, if_pos rfl]
    exact assocGet_assocSet _ _ _
  · simp [quarantine_driver, recycle_driver]
  · intro p hp
    simp only [quarantine_driver, recycle_driver, if_pos rfl] at hp
    rcases List.mem_append.mp hp with hin | hnew
    · intro hpw
      exact hid _ hin (hpw ▸ hwm)
    · have := List.mem_singleton.mp hnew
      intro hpw
      have h1 : p.1 = ⟨(quarantineMark m t).driver_id, s.nextTag⟩ :=
        congrArg Prod.fst this
      have h2 : w.tag = s.nextTag := by
        rw [← hpw, h1]
      omega
  · refine ⟨(⟨(quarantineMark m t).driver_id, s.nextTag⟩,
      { DriverMetrics.fresh (quarantineMark m t).driver_id t with
        restart_count := (quarantineMark m t).restart_count + 1 }), ?_, rfl,
      rfl, rfl, rfl⟩
    simp only [quarantine_driver, recycle_driver, if_pos rfl]
    exact List.mem_append.mpr (Or.inr (List.mem_singleton.mpr rfl))

/-- Witness for C6: quarantining a held driver with identifier 5 in a
fresh single-driver pool. -/
theorem C6_quarantine_driver_witness :
    ((⟨5, 0⟩ : Worker).driver_id
          = (DriverMetrics.fresh 5 0).driver_id ∧
        (⟨5, 0⟩ : Worker).tag < (mkPoolState 1 2 50 0).nextTag ∧
        ∀ p ∈ (mkPoolState 1 2 50 0).drivers,
          p.1.driver_id ≠ (DriverMetrics.fresh 5 0).driver_id) ∧
      ((quarantineMark (DriverMetrics.fresh 5 0) 9).is_quarantined = true ∧
        (quarantineMark (DriverMetrics.fresh 5 0) 9).quarantine_time = some 9 ∧
        assocGet (quarantine_driver (mkPoolState 1 2 50 0) ⟨5, 0⟩
            (DriverMetrics.fresh 5 0) 9 true).blocked_drivers
            (DriverMetrics.fresh 5 0).driver_id = some 9 ∧
        (quarantine_driver (mkPoolState 1 2 50 0) ⟨5, 0⟩
              (DriverMetrics.fresh 5 0) 9 true).total_driver_restarts
            = (mkPoolState 1 2 50 0).total_driver_restarts + 1 ∧
        (∀ p ∈ (quarantine_driver (mkPoolState 1 2 50 0) ⟨5, 0⟩
            (DriverMetrics.fresh 5 0) 9 true).drivers, p.1 ≠ ⟨5, 0⟩) ∧
        ∃ q ∈ (quarantine_driver (mkPoolState 1 2 50 0) ⟨5, 0⟩
            (DriverMetrics.fresh 5 0) 9 true).drivers,
          q.1.driver_id = (DriverMetrics.fresh 5 0).driver_id ∧
            q.2.request_count = 0 ∧
            q.2.restart_count = (DriverMetrics.fresh 5 0).restart_count + 1 ∧
            q.2.is_quarantined = false) :=
  ⟨⟨rfl, by decide, by decide⟩,
    C6_quarantine_driver (mkPoolState 1 2 50 0) ⟨5, 0⟩
      (DriverMetrics.fresh 5 0) 9 rfl (by decide) (by decide)⟩

/-- The embedded `_recycle_driver` touches neither `_last_scale_time` nor the scale
cooldown. -/
theorem recycle_driver_scale_fields (s : PoolState) (m : DriverMetrics)
    (t : ℚ) (ok : Bool) :
    (recycle_driver s m t ok).last_scale_time = s.last_scale_time ∧
      (recycle_driver s m t ok).scale_cooldown = s.scale_cooldown := by
  cases ok <;> simp [recycle_driver]

/-- The health-check probe loop touches neither `_last_scale_time` nor the
scale cooldown. -/
theorem processProbed_scale_fields (t : ℚ) (r c : Worker → Bool) :
    ∀ (l : List (Worker × DriverMetrics)) (st : PoolState),
      (processProbed t r c st l).last_scale_time = st.last_scale_time ∧
        (processProbed t r c st l).scale_cooldown = st.scale_cooldown := by
  intro l
  induction l with
  | nil => intro st; exact ⟨rfl, rfl⟩
  | cons p rest ih =>
    intro st
    match p with
    | (w, m) =>
      rw [processProbed]
      by_cases hr : r w
      · rw [if_pos hr]
        exact ih _
      · rw [if_neg hr]
        obtain ⟨h1, h2⟩ := ih (recycle_driver st m t (c w))
        obtain ⟨h3, h4⟩ := recycle_driver_scale_fields st m t (c w)
        exact ⟨h1.trans h3, h2.trans h4⟩

/-- The driver-adding loop of `_scale_pool` touches neither
`_last_scale_time` nor the scale cooldown. -/
theorem addDrivers_scale_fields (t : ℚ) (ok : Bool) :
    ∀ (ids : List Nat) (st : PoolState),
      (addDrivers t ok st ids).last_scale_time = st.last_scale_time ∧
        (addDrivers t ok st ids).scale_cooldown = st.scale_cooldown := by
  intro ids
  induction ids with
  | nil => intro st; exact ⟨rfl, rfl⟩
  | cons id ids ih =>
    intro st
    rw [addDrivers]
    by_cases hok : ok = true
    · rw [if_pos hok]
      exact ih _
    · rw [if_neg hok]
      exact ih _

/-- No pool operation changes the configured scale cooldown. -/
theorem step_preserves_cooldown (s : PoolState) (op : PoolOp) :
    (step s op).scale_cooldown = s.scale_cooldown := by
  match op with
  | .acquireOp t =>
    rw [step]
    match hd : s.drivers with
    | [] => rw [acquire, hd]
    | (w, m) :: rest => rw [acquire, hd]
  | .releaseOp i t ok =>
    rw [step]
    match hg : s.held.get? i with
    | none => rfl
    | some (w, m) =>
      show (release s w m t ok).scale_cooldown = s.scale_cooldown
      simp only [release]
      by_cases hceil : s.max_requests_per_driver ≤ m.request_count
      · rw [if_pos hceil]
        exact (recycle_driver_scale_fields _ m t ok).2
      · rw [if_neg hceil]
  | .scaleCheckOp t ok =>
    rw [step, adaptive_scaling_check]
    match hst : scaleTarget s t with
    | none => rfl
    | some n =>
      show (scale_pool s n t ok).scale_cooldown = s.scale_cooldown
      rw [scale_pool]
      by_cases hgrow : s.current_pool_size < n
      · simp only [if_pos hgrow]
        exact (addDrivers_scale_fields t ok _ s).2
      · simp only [if_neg hgrow]
  | .quarantineOp i t ok =>
    rw [step]
    match hg : s.held.get? i with
    | none => rfl
    | some (w, m) =>
      show (quarantine_driver s w m t ok).scale_cooldown = s.scale_cooldown
      rw [quarantine_driver]
      exact (recycle_driver_scale_fields _ _ t ok).2
  | .healthOp t r c =>
    rw [step, perform_health_check]
    exact (processProbed_scale_fields t r c _ _).2

/-- A step that is not a scaling check making a decision leaves
`_last_scale_time` unchanged. -/
theorem step_last_scale_of_no_fire (s : PoolState) (op : PoolOp)
    (h : ∀ t ok, op = .scaleCheckOp t ok → scaleTarget s t = none) :
    (step s op).last_scale_time = s.last_scale_time := by
  match op with
  | .acquireOp t =>
    rw [step]
    match hd : s.drivers with
    | [] => rw [acquire, hd]
    | (w, m) :: rest => rw [acquire, hd]
  | .releaseOp i t ok =>
    rw [step]
    match hg : s.held.get? i with
    | none => rfl
    | some (w, m) =>
      show (release s w m t ok).last_scale_time = s.last_scale_time
      simp only [release]
      by_cases hceil : s.max_requests_per_driver ≤ m.request_count
      · rw [if_pos hceil]
        exact (recycle_driver_scale_fields _ m t ok).1
      · rw [if_neg hceil]
  | .scaleCheckOp t ok =>
    rw [step, adaptive_scaling_check, h t ok rfl]
  | .quarantineOp i t ok =>
    rw [step]
    match hg : s.held.get? i with
    | none => rfl
    | some (w, m) =>
      show (quarantine_driver s w m t ok).last_scale_time = s.last_scale_time
      rw [quarantine_driver]
      exact (recycle_driver_scale_fields _ _ t ok).1
  | .healthOp t r c =>
    rw [step, perform_health_check]
    exact (processProbed_scale_fields t r c _ _).1

/-- A scaling check that makes a decision stamps `_last_scale_time` with
the decision instant. -/
theorem step_last_scale_of_fire (s : PoolState) (t : ℚ) (ok : Bool)
    (n : Nat) (h : scaleTarget s t = some n) :
    (step s (.scaleCheckOp t ok)).last_scale_time = t := by
  rw [step, adaptive_scaling_check, h]
  show (scale_pool s n t ok).last_scale_time = t
  rw [scale_pool]

/-- A scaling decision can only fire once the cooldown has elapsed since
`_last_scale_time`. -/
theorem scaleTarget_fire_time (s : PoolState) (t : ℚ) (n : Nat)
    (h : scaleTarget s t = some n) :
    s.last_scale_time + s.scale_cooldown ≤ t := by
  by_contra hlt
  push_neg at hlt
  rw [scaleTarget, if_pos (by linarith)] at h
  exact Option.noConfusion h

/-- Every execution's scaling-decision instants, prefixed with the start
state's `_last_scale_time`, are spaced at least one cooldown apart. -/
theorem scale_decision_chain (ops : List PoolOp) :
    ∀ s : PoolState,
      List.Chain' (fun a b => a + s.scale_cooldown ≤ b)
        (s.last_scale_time :: scaleDecisionTimes s ops) := by
  induction ops with
  | nil => intro s; simp [scaleDecisionTimes]
  | cons op rest ih =>
    intro s
    rw [scaleDecisionTimes]
    cases op with
    | acquireOp t =>
      have hcd := step_preserves_cooldown s (.acquireOp t)
      have hch := ih (step s (.acquireOp t))
      rw [hcd, step_last_scale_of_no_fire s _ (fun _ _ h => by cases h)] at hch
      simpa [scaleDecisionAt] using hch
    | releaseOp i t ok =>
      have hcd := step_preserves_cooldown s (.releaseOp i t ok)
      have hch := ih (step s (.releaseOp i t ok))
      rw [hcd, step_last_scale_of_no_fire s _ (fun _ _ h => by cases h)] at hch
      simpa [scaleDecisionAt] using hch
    | quarantineOp i t ok =>
      have hcd := step_preserves_cooldown s (.quarantineOp i t ok)
      have hch := ih (step s (.quarantineOp i t ok))
      rw [hcd, step_last_scale_of_no_fire s _ (fun _ _ h => by cases h)] at hch
      simpa [scaleDecisionAt] using hch
    | healthOp t r c =>
      have hcd := step_preserves_cooldown s (.healthOp t r c)
      have hch := ih (step s (.healthOp t r c))
      rw [hcd, step_last_scale_of_no_fire s _ (fun _ _ h => by cases h)] at hch
      simpa [scaleDecisionAt] using hch
    | scaleCheckOp t ok =>
      have hcd := step_preserves_cooldown s (.scaleCheckOp t ok)
      match hst : scaleTarget s t with
      | none =>
        have hch := ih (step s (.scaleCheckOp t ok))
        rw [hcd, step_last_scale_of_no_fire s _
          (fun t' ok' h => by cases h; exact hst)] at hch
        simpa [scaleDecisionAt, hst] using hch
      | some n =>
        have hch := ih (step s (.scaleCheckOp t ok))
        rw [hcd, step_last_scale_of_fire s t ok n hst] at hch
        have hfirst := scaleTarget_fire_time s t n hst
        have hrw : scaleDecisionAt s (.scaleCheckOp t ok) = [t] := by
          rw [scaleDecisionAt, hst]; rfl
        rw [hrw, List.singleton_append, List.chain'_cons]
        exact ⟨hfirst, hch⟩

/-- C8: in every execution, consecutive scaling decisions (changes of the
target pool size made by `_adaptive_scaling_check` reaching
`_scale_pool`) are at least one configured cooldown apart — at most one
scaling decision per cooldown period, even when checks triggered by
multiple acquisitions interleave. -/
theorem C8_one_scale_decision_per_cooldown (s : PoolState)
    (ops : List PoolOp) :
    List.Chain' (fun a b => a + s.scale_cooldown ≤ b)
      (scaleDecisionTimes s ops) :=
  (scale_decision_chain ops s).tail

/-- Filtering out an actual member strictly shrinks a list. -/
theorem length_filter_lt_of_mem {α : Type} {l : List α} {x : α}
    {p : α → Bool} (hx : x ∈ l) (hp : p x = false) :
    (l.filter p).length < l.length := by
  induction l with
  | nil => cases hx
  | cons a l ih =>
    rcases List.mem_cons.mp hx with rfl | hmem
    · rw [List.filter_cons_of_neg (by simp [hp])]
      exact Nat.lt_succ_of_le (List.length_filter_le _ _)
    · by_cases hpa : p a = true
      · rw [List.filter_cons_of_pos hpa]
        simpa using ih hmem
      · rw [List.filter_cons_of_neg (by simpa using hpa)]
        exact Nat.lt_succ_of_lt (ih hmem)

/-- The embedded `_recycle_driver` grows the idle queue by at most one entry and leaves
the held drivers and the target size unchanged. -/
theorem recycle_driver_stats (s : PoolState) (m : DriverMetrics) (t : ℚ)
    (ok : Bool) :
    (recycle_driver s m t ok).drivers.length ≤ s.drivers.length + 1 ∧
      (recycle_driver s m t ok).held = s.held ∧
      (recycle_driver s m t ok).current_pool_size = s.current_pool_size := by
  cases ok <;> simp [recycle_driver]

/-- The `_scale_pool` adding loop grows the idle queue by at most one
entry per requested identifier and leaves the held drivers and the
target size unchanged. -/
theorem addDrivers_stats (t : ℚ) (ok : Bool) :
    ∀ (ids : List Nat) (st : PoolState),
      (addDrivers t ok st ids).drivers.length
          ≤ st.drivers.length + ids.length ∧
        (addDrivers t ok st ids).held = st.held ∧
        (addDrivers t ok st ids).current_pool_size
          = st.current_pool_size := by
  intro ids
  induction ids with
  | nil => intro st; exact ⟨by simp [addDrivers], rfl, rfl⟩
  | cons id ids ih =>
    intro st
    rw [addDrivers]
    by_cases hok : ok = true
    · rw [if_pos hok]
      obtain ⟨h1, h2, h3⟩ := ih
        { st with
          drivers := st.drivers ++ [(⟨id, st.nextTag⟩, DriverMetrics.fresh id t)]
          driver_metrics := assocSet st.driver_metrics id
            (DriverMetrics.fresh id t)
          nextTag := st.nextTag + 1 }
      refine ⟨?_, h2, h3⟩
      dsimp only at h1
      simp only [List.length_append, List.length_singleton,
        List.length_cons, List.length_nil] at h1 ⊢
      omega
    · rw [if_neg hok]
      obtain ⟨h1, h2, h3⟩ := ih st
      exact ⟨le_trans h1 (by simp), h2, h3⟩

/-- The health-check probe loop grows the idle queue by at most one entry
per probed driver and leaves the held drivers and the target size
unchanged. -/
theorem processProbed_stats (t : ℚ) (r c : Worker → Bool) :
    ∀ (l : List (Worker × DriverMetrics)) (st : PoolState),
      (processProbed t r c st l).drivers.length
          ≤ st.drivers.length + l.length ∧
        (processProbed t r c st l).held = st.held ∧
        (processProbed t r c st l).current_pool_size
          = st.current_pool_size := by
  intro l
  induction l with
  | nil => intro st; exact ⟨by simp [processProbed], rfl, rfl⟩
  | cons p rest ih =>
    intro st
    match p with
    | (w, m) =>
      rw [processProbed]
      by_cases hr : r w
      · rw [if_pos hr]
        obtain ⟨h1, h2, h3⟩ :=
          ih { st with drivers := st.drivers ++ [(w, m)] }
        refine ⟨?_, h2, h3⟩
        dsimp only at h1
        simp only [List.length_append, List.length_singleton,
          List.length_cons, List.length_nil] at h1 ⊢
        omega
      · rw [if_neg hr]
        obtain ⟨h1, h2, h3⟩ := ih (recycle_driver st m t (c w))
        obtain ⟨g1, g2, g3⟩ := recycle_driver_stats st m t (c w)
        refine ⟨?_, h2.trans g2, h3.trans g3⟩
        simp only [List.length_cons]
        omega

/-- A firing scaling decision is a one-step grow or a one-step shrink of
the current target size. -/
theorem scaleTarget_values (s : PoolState) (t : ℚ) (n : Nat)
    (h : scaleTarget s t = some n) :
    n = s.current_pool_size + 1 ∨ n = s.current_pool_size - 1 := by
  simp only [scaleTarget] at h
  split at h
  · exact absurd h (by simp)
  · split at h
    · exact absurd h (by simp)
    · split at h
      · exact Or.inl (Option.some_injective _ h).symm
      · split at h
        · exact Or.inr (Option.some_injective _ h).symm
        · exact absurd h (by simp)

/-- Any step that is not a scale-down decision preserves
`idle + held ≤ current target size`. -/
theorem step_preserves_capacity (s : PoolState) (op : PoolOp)
    (hcap : s.drivers.length + s.held.length ≤ s.current_pool_size)
    (hns : notScaleDownAt s op = true) :
    (step s op).drivers.length + (step s op).held.length
      ≤ (step s op).current_pool_size := by
  cases op with
  | acquireOp t =>
    rw [step]
    match hd : s.drivers with
    | [] => rw [acquire, hd]; exact hcap
    | (w, m) :: rest =>
      rw [acquire, hd]
      show rest.length + (s.held ++ [_]).length ≤ s.current_pool_size
      rw [hd] at hcap
      simp only [List.length_append, List.length_singleton,
        List.length_cons, List.length_nil] at hcap ⊢
      omega
  | releaseOp i t ok =>
    rw [step]
    match hg : s.held.get? i with
    | none => exact hcap
    | some (w, m) =>
      show (release s w m t ok).drivers.length
        + (release s w m t ok).held.length
        ≤ (release s w m t ok).current_pool_size
      have hmem : (w, m) ∈ s.held := List.get?_mem hg
      have hflt : (s.held.filter (fun p => decide (p.1 ≠ w))).length
          < s.held.length :=
        length_filter_lt_of_mem hmem (by simp)
      simp only [release]
      by_cases hceil : s.max_requests_per_driver ≤ m.request_count
      · rw [if_pos hceil]
        obtain ⟨h1, h2, h3⟩ := recycle_driver_stats
          { s with
            total_releases := s.total_releases + 1
            held := s.held.filter (fun p => decide (p.1 ≠ w)) } m t ok
        rw [h2, h3]
        dsimp only at h1 ⊢
        omega
      · rw [if_neg hceil]
        show (s.drivers ++ [(w, m)]).length
          + (s.held.filter (fun p => decide (p.1 ≠ w))).length
          ≤ s.current_pool_size
        simp only [List.length_append, List.length_singleton,
          List.length_cons, List.length_nil]
        omega
  | scaleCheckOp t ok =>
    rw [step, adaptive_scaling_check]
    match hst : scaleTarget s t with
    | none => exact hcap
    | some n =>
      have hnotdown : ¬(scaleTarget s t = some (s.current_pool_size - 1)) := by
        rw [notScaleDownAt] at hns
        simpa using hns
      have hn : n = s.current_pool_size + 1 := by
        rcases scaleTarget_values s t n hst with h | h
        · exact h
        · exact absurd (h ▸ hst) hnotdown
      subst hn
      show (scale_pool s (s.current_pool_size + 1) t ok).drivers.length
        + (scale_pool s (s.current_pool_size + 1) t ok).held.length
        ≤ (scale_pool s (s.current_pool_size + 1) t ok).current_pool_size
      rw [scale_pool]
      simp only [if_pos (Nat.lt_succ_self s.current_pool_size)]
      obtain ⟨h1, h2, h3⟩ := addDrivers_stats t ok
        ((List.range (s.current_pool_size + 1 - s.current_pool_size)).map
          (fun i => s.current_pool_size + i)) s
      show (addDrivers t ok s _).drivers.length
        + (addDrivers t ok s _).held.length ≤ s.current_pool_size + 1
      rw [h2]
      have hlen :
          ((List.range (s.current_pool_size + 1 - s.current_pool_size)).map
            (fun i => s.current_pool_size + i)).length = 1 := by
        simp
      rw [hlen] at h1
      omega
  | quarantineOp i t ok =>
    rw [step]
    match hg : s.held.get? i with
    | none => exact hcap
    | some (w, m) =>
      show (quarantine_driver s w m t ok).drivers.length
        + (quarantine_driver s w m t ok).held.length
        ≤ (quarantine_driver s w m t ok).current_pool_size
      have hmem : (w, m) ∈ s.held := List.get?_mem hg
      have hflt : (s.held.filter (fun p => decide (p.1 ≠ w))).length
          < s.held.length :=
        length_filter_lt_of_mem hmem (by simp)
      rw [quarantine_driver]
      obtain ⟨h1, h2, h3⟩ := recycle_driver_stats
        { s with
          blocked_drivers := assocSet s.blocked_drivers m.driver_id t
          total_blocked_drivers := s.total_blocked_drivers + 1
          held := s.held.filter (fun p => decide (p.1 ≠ w)) }
        (quarantineMark m t) t ok
      rw [h2, h3]
      dsimp only at h1 ⊢
      omega
  | healthOp t r c =>
    rw [step, perform_health_check]
    obtain ⟨h1, h2, h3⟩ := processProbed_stats t r c
      (s.drivers.take (min s.drivers.length s.current_pool_size))
      { s with
        drivers := s.drivers.drop
          (min s.drivers.length s.current_pool_size) }
    rw [h2, h3]
    dsimp only at h1 ⊢
    have hdrop : (s.drivers.drop
        (min s.drivers.length s.current_pool_size)).length
          = s.drivers.length - min s.drivers.length s.current_pool_size := by
      simp
    have htake : (s.drivers.take
        (min s.drivers.length s.current_pool_size)).length
          = min s.drivers.length s.current_pool_size := by
      simp [Nat.min_le_left]
    rw [hdrop, htake] at h1
    omega

/-- In an execution making no scale-down decision, the capacity invariant
holds at every observation point. -/
theorem run_capacity (ops : List PoolOp) :
    ∀ s : PoolState,
      s.drivers.length + s.held.length ≤ s.current_pool_size →
      noScaleDownRun s ops = true →
      allStatesCapacityOk s ops = true := by
  induction ops with
  | nil =>
    intro s hcap _
    rw [allStatesCapacityOk, capacityOk]
    exact decide_eq_true hcap
  | cons op rest ih =>
    intro s hcap hns
    rw [noScaleDownRun, Bool.and_eq_true] at hns
    rw [allStatesCapacityOk, Bool.and_eq_true, capacityOk]
    exact ⟨decide_eq_true hcap,
      ih _ (step_preserves_capacity s op hcap hns.1) hns.2⟩

/-- C1 counterexample: after `c1Trace` — a sequence of acquires and
releases together with the scaling checks those acquisitions trigger —
the target size has been lazily lowered to 1 while two drivers are idle,
so `idle + held ≤ current_pool_size` is violated. -/
theorem C1_capacity_counterexample :
    capacityOk (run (mkPoolState 1 2 50 0) c1Trace) = false := by
  with_unfolding_all decide

/-- C1 (amended): for every sequence of acquire and release operations on
an initialized pool — including the scaling checks and health checks they
interleave with — during which the adaptive scaler makes no scale-down
decision, the number of idle drivers plus the number of held drivers is
at most the current target size at every observation point.  (A lazy
scale-down decision lowers the target without removing any driver, after
which idle + held can exceed the target, as `C1_capacity_counterexample`
shows.) -/
theorem C1_capacity_invariant (s : PoolState) (ops : List PoolOp)
    (hcap : s.drivers.length + s.held.length ≤ s.current_pool_size)
    (hns : noScaleDownRun s ops = true) :
    allStatesCapacityOk s ops = true :=
  run_capacity ops s hcap hns

/-- Witness for the amended C1: a fresh pool, one acquire then one
release. -/
theorem C1_capacity_invariant_witness :
    ((mkPoolState 1 2 50 0).drivers.length
          + (mkPoolState 1 2 50 0).held.length
        ≤ (mkPoolState 1 2 50 0).current_pool_size ∧
      noScaleDownRun (mkPoolState 1 2 50 0)
        [.acquireOp 1, .releaseOp 0 2 true] = true) ∧
      allStatesCapacityOk (mkPoolState 1 2 50 0)
        [.acquireOp 1, .releaseOp 0 2 true] = true :=
  ⟨⟨by decide, by decide⟩,
    C1_capacity_invariant (mkPoolState 1 2 50 0)
      [.acquireOp 1, .releaseOp 0 2 true] (by decide) (by decide)⟩

/-- C7 (failing execution): after `c7Trace`, a held driver and an idle
driver are two distinct live instances bearing the same stable
identifier 1, while the metrics map holds exactly one entry per
identifier (keys `[0, 1]`) — so the held driver is no longer tracked by
any `DriverMetrics` entry of the map. -/
theorem C7_duplicate_identifier :
    (∃ p ∈ (run (mkPoolState 1 2 50 0) c7Trace).held,
        ∃ q ∈ (run (mkPoolState 1 2 50 0) c7Trace).drivers,
          p.1.driver_id = q.1.driver_id ∧ p.1 ≠ q.1) ∧
      (run (mkPoolState 1 2 50 0) c7Trace).driver_metrics.map Prod.fst
        = [0, 1] := by
  with_unfolding_all decide

/-- Drivers already in the idle queue survive `_recycle_driver`. -/
theorem recycle_driver_drivers_mono (s : PoolState) (m : DriverMetrics)
    (t : ℚ) (ok : Bool) (q : Worker × DriverMetrics) (hq : q ∈ s.drivers) :
    q ∈ (recycle_driver s m t ok).drivers := by
  cases ok <;> simp [recycle_driver, hq]

/-- The embedded `_recycle_driver` never lowers the tag counter. -/
theorem recycle_driver_nextTag (s : PoolState) (m : DriverMetrics) (t : ℚ)
    (ok : Bool) : s.nextTag ≤ (recycle_driver s m t ok).nextTag := by
  cases ok <;> simp [recycle_driver]

/-- The embedded `_recycle_driver` never introduces an idle driver bearing an already
allocated instance tag. -/
theorem recycle_driver_tag_free (s : PoolState) (m : DriverMetrics)
    (t : ℚ) (ok : Bool) (τ : Nat) (hτ : τ < s.nextTag)
    (hs : ∀ q ∈ s.drivers, q.1.tag ≠ τ) :
    τ < (recycle_driver s m t ok).nextTag ∧
      ∀ q ∈ (recycle_driver s m t ok).drivers, q.1.tag ≠ τ := by
  cases ok with
  | false => exact ⟨hτ, hs⟩
  | true =>
    constructor
    · simp [recycle_driver]
      omega
    · intro q hq
      simp only [recycle_driver, if_pos rfl] at hq
      rcases List.mem_append.mp hq with h | h
      · exact hs q h
      · have hq' := List.mem_singleton.mp h
        subst hq'
        dsimp only
        omega

/-- Drivers already in the idle queue survive the health-check probe
loop. -/
theorem processProbed_drivers_mono (t : ℚ) (r c : Worker → Bool) :
    ∀ (l : List (Worker × DriverMetrics)) (st : PoolState)
      (q : Worker × DriverMetrics), q ∈ st.drivers →
      q ∈ (processProbed t r c st l).drivers := by
  intro l
  induction l with
  | nil => intro st q hq; exact hq
  | cons p rest ih =>
    intro st q hq
    match p with
    | (w, m) =>
      rw [processProbed]
      by_cases hr : r w
      · rw [if_pos hr]
        exact ih _ q (List.mem_append.mpr (Or.inl hq))
      · rw [if_neg hr]
        exact ih _ q (recycle_driver_drivers_mono st m t (c w) q hq)

/-- A drained driver that answers its probe is put back into the idle
queue by the health check's probe loop. -/
theorem processProbed_responsive_mem (t : ℚ) (r c : Worker → Bool) :
    ∀ (l : List (Worker × DriverMetrics)) (st : PoolState)
      (x : Worker × DriverMetrics), x ∈ l → r x.1 = true →
      x ∈ (processProbed t r c st l).drivers := by
  intro l
  induction l with
  | nil => intro st x hx _; cases hx
  | cons p rest ih =>
    intro st x hx hr
    match p with
    | (w, m) =>
      rw [processProbed]
      rcases List.mem_cons.mp hx with heq | hmem
      · subst heq
        rw [if_pos hr]
        exact processProbed_drivers_mono t r c rest _ (w, m)
          (List.mem_append.mpr (Or.inr (List.mem_singleton.mpr rfl)))
      · by_cases hw : r w = true
        · rw [if_pos hw]
          exact ih _ x hmem hr
        · rw [if_neg hw]
          exact ih _ x hmem hr

/-- A drained driver that fails its probe is recycled by the probe loop:
when the replacement creation succeeds, the idle queue afterwards holds a
replacement with the same identifier, reset use-count and incremented
restart count. -/
theorem processProbed_replacement (t : ℚ) (r c : Worker → Bool) :
    ∀ (l : List (Worker × DriverMetrics)) (st : PoolState)
      (x : Worker × DriverMetrics), x ∈ l → r x.1 = false → c x.1 = true →
      ∃ q ∈ (processProbed t r c st l).drivers,
        q.1.driver_id = x.2.driver_id ∧
          q.2.restart_count = x.2.restart_count + 1 ∧
          q.2.request_count = 0 := by
  intro l
  induction l with
  | nil => intro st x hx _ _; cases hx
  | cons p rest ih =>
    intro st x hx hr hc
    match p with
    | (w, m) =>
      rw [processProbed]
      rcases List.mem_cons.mp hx with heq | hmem
      · subst heq
        rw [if_neg (by simp [hr])]
        refine ⟨(⟨m.driver_id, st.nextTag⟩,
          { DriverMetrics.fresh m.driver_id t with
            restart_count := m.restart_count + 1 }), ?_, rfl, rfl, rfl⟩
        refine processProbed_drivers_mono t r c rest _ _ ?_
        have hc' : c w = true := hc
        rw [hc']
        simp only [recycle_driver, if_pos rfl]
        exact List.mem_append.mpr (Or.inr (List.mem_singleton.mpr rfl))
      · by_cases hw : r w = true
        · rw [if_pos hw]
          exact ih _ x hmem hr hc
        · rw [if_neg hw]
          exact ih _ x hmem hr hc

/-- If no driver in the idle queue bears instance tag `τ`, every drained
driver bearing `τ` fails its probe, and `τ` is already allocated, then
after the probe loop no idle driver bears `τ`. -/
theorem processProbed_tag_free (t : ℚ) (r c : Worker → Bool) (τ : Nat) :
    ∀ (l : List (Worker × DriverMetrics)) (st : PoolState),
      τ < st.nextTag →
      (∀ q ∈ st.drivers, q.1.tag ≠ τ) →
      (∀ x ∈ l, x.1.tag = τ → r x.1 = false) →
      ∀ q ∈ (processProbed t r c st l).drivers, q.1.tag ≠ τ := by
  intro l
  induction l with
  | nil => intro st _ hst _ q hq; exact hst q hq
  | cons p rest ih =>
    intro st hτ hst hl
    match p with
    | (w, m) =>
      rw [processProbed]
      by_cases hr : r w
      · rw [if_pos hr]
        refine ih _ hτ ?_ (fun x hx => hl x (List.mem_cons_of_mem _ hx))
        intro q hq
        rcases List.mem_append.mp hq with h | h
        · exact hst q h
        · have hq' := List.mem_singleton.mp h
          subst hq'
          intro heq
          have hfalse := hl (w, m) (List.mem_cons_self _ _) heq
          rw [hfalse] at hr
          exact absurd hr (by simp)
      · rw [if_neg hr]
        obtain ⟨g1, g2⟩ := recycle_driver_tag_free st m t (c w) τ hτ hst
        exact ih _ g1 g2 (fun x hx => hl x (List.mem_cons_of_mem _ hx))

/-- C9: each health-check cycle drains at most `current_pool_size`
entries — the drain count `min(qsize, current_pool_size)` is computed
once, from the queue length at the start of the cycle — and drains only
the idle queue (held drivers are untouched, hence never probed); every
drained driver that answers its probe is returned to the idle queue;
every drained driver that fails its probe is recycled: its instance never
reappears in the idle queue, and (when replacement creation succeeds) a
replacement with the same identifier, reset use-count and incremented
restart count is inserted instead. -/
theorem C9_health_check (s : PoolState) (t : ℚ)
    (responsive createOk : Worker → Bool)
    (hnodup : (s.drivers.map (fun p => p.1.tag)).Nodup)
    (htags : ∀ p ∈ s.drivers, p.1.tag < s.nextTag) :
    min s.drivers.length s.current_pool_size ≤ s.current_pool_size ∧
      (perform_health_check s t responsive createOk).held = s.held ∧
      (∀ p ∈ s.drivers.take (min s.drivers.length s.current_pool_size),
        responsive p.1 = true →
          p ∈ (perform_health_check s t responsive createOk).drivers) ∧
      (∀ p ∈ s.drivers.take (min s.drivers.length s.current_pool_size),
        responsive p.1 = false →
          (∀ q ∈ (perform_health_check s t responsive createOk).drivers,
            q.1 ≠ p.1) ∧
          (createOk p.1 = true →
            ∃ q ∈ (perform_health_check s t responsive createOk).drivers,
              q.1.driver_id = p.2.driver_id ∧
                q.2.restart_count = p.2.restart_count + 1 ∧
                q.2.request_count = 0)) := by
  have hmin : min s.drivers.length s.current_pool_size
      ≤ s.current_pool_size := Nat.min_le_right _ _
  refine ⟨hmin,
    (processProbed_stats t responsive createOk _ _).2.1, ?_, ?_⟩
  · intro p hp hresp
    exact processProbed_responsive_mem t responsive createOk _ _ p hp hresp
  · intro p hp hresp
    have hpmem : p ∈ s.drivers := List.mem_of_mem_take hp
    constructor
    · have hsplit := (List.take_append_drop
        (min s.drivers.length s.current_pool_size) s.drivers).symm
      have hnodup' := hnodup
      rw [hsplit, List.map_append, List.nodup_append] at hnodup'
      obtain ⟨hnd1, hnd2, hdisj⟩ := hnodup'
      have htagfree : ∀ q ∈ (perform_health_check s t responsive
          createOk).drivers, q.1.tag ≠ p.1.tag := by
        rw [perform_health_check]
        refine processProbed_tag_free t responsive createOk p.1.tag _ _
          (htags p hpmem) ?_ ?_
        · intro q hq
          intro heq
          exact hdisj (List.mem_map_of_mem _ hp)
            (heq ▸ List.mem_map_of_mem _ hq)
        · intro x hx heq
          have hxp : x = p :=
            List.inj_on_of_nodup_map hnd1 hx hp heq
          rw [hxp]
          exact hresp
      intro q hq hqp
      exact htagfree q hq (by rw [hqp])
    · intro hok
      exact processProbed_replacement t responsive createOk _ _ p hp hresp hok

/-- Witness for C9: a two-driver pool where only the driver with tag 0
answers its probe. -/
theorem C9_health_check_witness :
    ((samplePool.drivers.map (fun p => p.1.tag)).Nodup ∧
        ∀ p ∈ samplePool.drivers, p.1.tag < samplePool.nextTag) ∧
      (min samplePool.drivers.length samplePool.current_pool_size
          ≤ samplePool.current_pool_size ∧
        (perform_health_check samplePool 1 sampleResponsive
            sampleCreateOk).held = samplePool.held ∧
        (∀ p ∈ samplePool.drivers.take
            (min samplePool.drivers.length samplePool.current_pool_size),
          sampleResponsive p.1 = true →
            p ∈ (perform_health_check samplePool 1 sampleResponsive
              sampleCreateOk).drivers) ∧
        (∀ p ∈ samplePool.drivers.take
            (min samplePool.drivers.length samplePool.current_pool_size),
          sampleResponsive p.1 = false →
            (∀ q ∈ (perform_health_check samplePool 1 sampleResponsive
                sampleCreateOk).drivers, q.1 ≠ p.1) ∧
            (sampleCreateOk p.1 = true →
              ∃ q ∈ (perform_health_check samplePool 1 sampleResponsive
                  sampleCreateOk).drivers,
                q.1.driver_id = p.2.driver_id ∧
                  q.2.restart_count = p.2.restart_count + 1 ∧
                  q.2.request_count = 0))) :=
  ⟨⟨by decide, by decide⟩,
    C9_health_check samplePool 1 sampleResponsive sampleCreateOk
      (by decide) (by decide)⟩

end ScholarPool
